import Mathlib

/-!
# Verification of the rate-limit coordination layer of mailerlite-api-v2-node

Shallow embedding of the rate-limit handling code:
* `RateLimitHandler` (`src/rateLimit.ts`): header parsing, 429 classification,
  typed rate-limit errors, and the bounded recursive retry loop
  `handleRateLimit`.
* `RateLimitUtils` and `RateLimitBatchProcessor` (`src/rateLimitUtils.ts`):
  pure wait-time / batch-size / usage computations and the sequential chunked
  batch processor.
* The axios response-error interceptor installed by the client factory
  (`src/index.ts`), which classifies errors and routes 429s to
  `handleRateLimit`.

JavaScript numbers that can be `NaN` (the results of `parseInt` and of the
`Date` constructor) are modelled by `JSNum`; integer-valued rate-limit states,
as consumed by the pure utility functions, are modelled with `Int` fields.
Wall-clock time (`Date.now()`, `new Date()`) is modelled by an explicit `now`
parameter in milliseconds. Sleeping has no observable state effect and is not
modelled; callback invocations are recorded as lists of events.
-/

/-- A JavaScript number that is either an actual integer or `NaN`.
`parseInt` and invalid `Date`s produce `NaN`. -/
inductive JSNum where
  | nan : JSNum
  | int (n : Int) : JSNum
deriving DecidableEq, Repr

/-- Rendering of a JS number by string interpolation (template literals). -/
def JSNum.render : JSNum → String
  | .nan => "NaN"
  | .int n => toString n

/-- Model of JavaScript `parseInt(s, 10)`: skip leading whitespace, read an
optional sign and then the longest prefix of decimal digits; `NaN` when no
digit is found. Trailing garbage is ignored. -/
def jsParseInt (s : String) : JSNum :=
  let cs := s.data.dropWhile (fun c => c == ' ' || c == '\t' || c == '\n' || c == '\r')
  let signAndRest : Int × List Char :=
    match cs with
    | '-' :: r => (-1, r)
    | '+' :: r => (1, r)
    | r => (1, r)
  let ds := signAndRest.2.takeWhile Char.isDigit
  if ds.isEmpty then .nan
  else .int (signAndRest.1 * ds.foldl (fun a c => a * 10 + ((c.toNat : Int) - 48)) 0)

/-- Model of `new Date(s)` for the reset header. The exact date grammar
accepted by the JS engine is irrelevant to every property proved below (no
theorem depends on this function's value); we model it as: a non-empty string
of decimal digits is read as a millisecond timestamp, anything else is an
invalid date (`NaN`). -/
def jsDateParse (s : String) : JSNum :=
  if s.data ≠ [] ∧ s.data.all Char.isDigit then
    .int (s.data.foldl (fun a c => a * 10 + ((c.toNat : Int) - 48)) 0)
  else .nan

/-- The four rate-limit response headers; `none` models an absent header. -/
structure HeaderMap where
  limit : Option String
  remaining : Option String
  reset : Option String
  retryAfter : Option String
deriving DecidableEq, Repr

/-- An axios response: HTTP status plus the header map. -/
structure AxiosResponse where
  status : Int
  headers : HeaderMap
deriving DecidableEq, Repr

/-- An axios error: `error.response` may be absent. -/
structure AxiosError where
  response : Option AxiosResponse
deriving DecidableEq, Repr

/-- The parsed `RateLimitHeaders` object returned by
`RateLimitHandler.parseRateLimitHeaders`: fields are raw `parseInt` /
`new Date` results, so they may be `NaN` — the code never validates them. -/
structure RateLimitHeaders where
  limit : JSNum
  remaining : JSNum
  reset : JSNum
  retryAfter : JSNum
deriving DecidableEq, Repr

/-- JS truthiness of an optional header value: `undefined` and `""` are falsy,
every other string is truthy. -/
def headerTruthy : Option String → Bool
  | none => false
  | some s => !s.isEmpty

/-- `RateLimitHandler.parseRateLimitHeaders` (src/rateLimit.ts 20–39): read the
four headers; if any is missing (or falsy), return `null`; otherwise build the
state with `parseInt` / `new Date`, unvalidated. -/
def parseRateLimitHeaders (response : AxiosResponse) : Option RateLimitHeaders :=
  let h := response.headers
  if headerTruthy h.limit && headerTruthy h.remaining &&
      headerTruthy h.reset && headerTruthy h.retryAfter then
    some
      { limit := jsParseInt (h.limit.getD "")
        remaining := jsParseInt (h.remaining.getD "")
        reset := jsDateParse (h.reset.getD "")
        retryAfter := jsParseInt (h.retryAfter.getD "") }
  else
    none

/-- `RateLimitHandler.isRateLimitError` (src/rateLimit.ts 44–46):
`error.response?.status === 429`. -/
def isRateLimitError (e : AxiosError) : Bool :=
  match e.response with
  | some r => r.status == 429
  | none => false

/-- An integer-valued rate-limit state, the data-model view used by the pure
`RateLimitUtils` functions (`limit`, `remaining`, `retryAfter` are numbers,
`reset` is a `Date` modelled as a millisecond timestamp). -/
structure RateLimitState where
  limit : Int
  remaining : Int
  reset : Int
  retryAfter : Int
deriving DecidableEq, Repr

/-- `Math.ceil(a / b)` on integers, for a positive divisor `b`:
the ceiling of the exact quotient. -/
def ceilDivInt (a b : Int) : Int := -((-a).ediv b)

/-- `Math.round q` for an exact rational `q`: `⌊q + 1/2⌋` (JS rounds half-up
toward `+∞`). -/
def jsRound (q : ℚ) : Int := ⌊q + 1/2⌋

/-- `RateLimitUtils.getWaitTime` (src/rateLimitUtils.ts 27–44); `now` is the
caller-supplied current time in ms. -/
def getWaitTime (now : Int) (headers : RateLimitState) : Int :=
  if headers.reset ≤ now then 0
  else if headers.remaining > 0 then ceilDivInt (headers.reset - now) headers.remaining
  else headers.reset - now

/-- `RateLimitUtils.shouldPause` (src/rateLimitUtils.ts 49–51). -/
def shouldPause (headers : RateLimitState) (threshold : Int) : Bool :=
  headers.remaining ≤ threshold

/-- Model of `Date.prototype.toLocaleTimeString` used in status messages. The
real rendering is locale-dependent; no property proved below depends on it. -/
def jsToLocaleTimeString (ms : Int) : String := toString ms

/-- `RateLimitUtils.getRateLimitStatus` (src/rateLimitUtils.ts 56–70), the
three-tier human-readable status string. -/
def getRateLimitStatus (headers : RateLimitState) : String :=
  let remaining := headers.remaining
  let total := headers.limit
  let resetTime := jsToLocaleTimeString headers.reset
  if remaining = 0 then
    "Rate limit reached (0/" ++ toString total ++ "). Resets at " ++ resetTime
  else if remaining ≤ 5 then
    "Rate limit warning: Only " ++ toString remaining ++ "/" ++ toString total ++
      " requests remaining. Resets at " ++ resetTime
  else
    "Rate limit status: " ++ toString remaining ++ "/" ++ toString total ++
      " requests remaining. Resets at " ++ resetTime

/-- `RateLimitUtils.getRateLimitUsagePercent` (src/rateLimitUtils.ts 85–88):
`Math.round((used / limit) * 100)` computed exactly over ℚ. (At `limit = 0`
the JS code produces `NaN`; no claim concerns that degenerate state.) -/
def getRateLimitUsagePercent (headers : RateLimitState) : Int :=
  jsRound ((((headers.limit - headers.remaining : Int) : ℚ) / (headers.limit : ℚ)) * 100)

/-- `RateLimitUtils.calculateBatchDelay` (src/rateLimitUtils.ts 111–138). -/
def calculateBatchDelay (now : Int) (headers : RateLimitState)
    (remainingOperations : Int) : Int :=
  if headers.remaining ≤ 0 then
    max 0 (headers.reset - now)
  else if remainingOperations ≤ headers.remaining then
    0
  else
    let timeUntilReset := headers.reset - now
    if timeUntilReset ≤ 0 then 0
    else ceilDivInt timeUntilReset headers.remaining

/-- `RateLimitUtils.willExceedRateLimit` (src/rateLimitUtils.ts 159–164). -/
def willExceedRateLimit (headers : RateLimitState) (additionalRequests : Int) : Bool :=
  headers.remaining < additionalRequests

/-- `RateLimitUtils.getOptimalBatchSize` (src/rateLimitUtils.ts 169–178).
`Math.floor(limit * 0.1)` is modelled as the exact `⌊limit / 10⌋`
(`Int.ediv` by the positive constant 10). -/
def getOptimalBatchSize (headers : RateLimitState) (maxBatchSize : Int) : Int :=
  let buffer := max 5 (headers.limit.ediv 10)
  let safeRemaining := max 0 (headers.remaining - buffer)
  min maxBatchSize safeRemaining

/-- Substring containment, stated over the underlying character lists. -/
def strContainsSub (s sub : String) : Prop :=
  ∃ p q : List Char, s.data = p ++ sub.data ++ q

/-! ## The retry coordinator: `RateLimitHandler.handleRateLimit` and the
response-error interceptor of the client factory -/

/-- The typed rate-limit error built by
`RateLimitHandler.createRateLimitError` (src/rateLimit.ts 51–70). -/
structure RateLimitErrorObj where
  name : String
  message : String
  isRateLimitErrorFlag : Bool
  rateLimitHeaders : RateLimitHeaders
deriving DecidableEq, Repr

/-- `RateLimitHandler.createRateLimitError` (src/rateLimit.ts 51–70): parse
the failing response's headers if present; message and fallback headers as in
the source (`Date.now() + 60000` is `now + 60000`). -/
def createRateLimitError (now : Int) (error : AxiosError) : RateLimitErrorObj :=
  let rateLimitHeaders := error.response.bind parseRateLimitHeaders
  { name := "RateLimitError"
    message := "Rate limit exceeded. " ++
      (match rateLimitHeaders with
       | some h => "Retry after " ++ h.retryAfter.render ++ " seconds."
       | none => "Please try again later.")
    isRateLimitErrorFlag := true
    rateLimitHeaders := rateLimitHeaders.getD
      { limit := .int 60, remaining := .int 0,
        reset := .int (now + 60000), retryAfter := .int 60 } }

/-- Configuration of a `RateLimitHandler` (constructor, src/rateLimit.ts
10–15). Observer callbacks are modelled by recording their invocations in the
trace below. -/
structure RLConfig where
  rateLimitRetryAttempts : Nat
  rateLimitRetryDelay : Int
deriving DecidableEq, Repr

/-- Outcome of one invocation of the replayable operation (`retryFn`):
return a response, throw an axios-like error (an `Error` with a `response`
property), or throw anything else. -/
inductive OpOutcome where
  | ok (resp : AxiosResponse)
  | fail (e : AxiosError)
  | failOther (tag : Nat)
deriving DecidableEq, Repr

/-- How a call through the coordinator (or the interceptor) terminates. -/
inductive HandleResult where
  | success (resp : AxiosResponse)
  | rateLimitErr (e : RateLimitErrorObj)
  | originalErr (e : AxiosError)
  | otherErr (tag : Nat)
deriving DecidableEq, Repr

/-- Observable trace of a call: how many times `retryFn` was invoked, the
`onRateLimitHit` and `onRateLimitRetry` invocations (in order, with their
arguments), and the final outcome. -/
structure HandleTrace where
  calls : Nat
  quotaHits : List RateLimitHeaders
  retryEvents : List (Nat × RateLimitHeaders)
  result : HandleResult
deriving DecidableEq, Repr

/-- Recursion core of `RateLimitHandler.handleRateLimit`
(src/rateLimit.ts 75–134). The JS recursion terminates because `attempt`
strictly increases toward the `attempt >= rateLimitRetryAttempts` guard; the
structural `fuel` argument mirrors that bound (the wrapper below passes
`rateLimitRetryAttempts + 1 - attempt`, which never reaches 0 before the
guard fires, so the fuel-exhaustion arm is unreachable). `op k` is the
outcome of the `k`-th invocation of `retryFn`; backoff sleeps have no
observable effect and are not recorded. -/
def handleRateLimitGo (cfg : RLConfig) (now : Int) (op : Nat → OpOutcome) :
    Nat → AxiosError → Nat → Nat → HandleTrace
  | fuel, error, attempt, callIdx =>
    if isRateLimitError error = false ∨ cfg.rateLimitRetryAttempts ≤ attempt then
      { calls := 0, quotaHits := [], retryEvents := [],
        result := .rateLimitErr (createRateLimitError now error) }
    else
      match fuel with
      | 0 =>
        { calls := 0, quotaHits := [], retryEvents := [],
          result := .rateLimitErr (createRateLimitError now error) }
      | fuel' + 1 =>
        let rateLimitHeaders := error.response.bind parseRateLimitHeaders
        match rateLimitHeaders with
        | some hd =>
          let hits := if attempt = 0 then [hd] else []
          let evs := [(attempt + 1, hd)]
          match op callIdx with
          | .ok resp =>
            { calls := 1, quotaHits := hits, retryEvents := evs,
              result := .success resp }
          | .fail e' =>
            let t := handleRateLimitGo cfg now op fuel' e' (attempt + 1) (callIdx + 1)
            { calls := t.calls + 1, quotaHits := hits ++ t.quotaHits,
              retryEvents := evs ++ t.retryEvents, result := t.result }
          | .failOther tag =>
            { calls := 1, quotaHits := hits, retryEvents := evs,
              result := .otherErr tag }
        | none =>
          match op callIdx with
          | .ok resp =>
            { calls := 1, quotaHits := [], retryEvents := [],
              result := .success resp }
          | .fail e' =>
            let t := handleRateLimitGo cfg now op fuel' e' (attempt + 1) (callIdx + 1)
            { calls := t.calls + 1, quotaHits := t.quotaHits,
              retryEvents := t.retryEvents, result := t.result }
          | .failOther tag =>
            { calls := 1, quotaHits := [], retryEvents := [],
              result := .otherErr tag }

/-- `RateLimitHandler.handleRateLimit` (src/rateLimit.ts 75–134), entered
with the threaded `attempt` counter. -/
def handleRateLimit (cfg : RLConfig) (now : Int) (op : Nat → OpOutcome)
    (error : AxiosError) (attempt : Nat) (callIdx : Nat) : HandleTrace :=
  handleRateLimitGo cfg now op (cfg.rateLimitRetryAttempts + 1 - attempt)
    error attempt callIdx

/-- The response-error interceptor installed by the client factory
(src/index.ts 104–135), with rate limiting enabled: a 429 error is routed to
`handleRateLimit` (whose thrown error is re-rejected unchanged by the catch);
any other error is rejected as-is. -/
def interceptOnError (cfg : RLConfig) (now : Int) (op : Nat → OpOutcome)
    (error : AxiosError) : HandleTrace :=
  if isRateLimitError error then
    handleRateLimit cfg now op error 0 0
  else
    { calls := 0, quotaHits := [], retryEvents := [], result := .originalErr error }

/-- A whole call sequence: `op 0` is the initial request; on failure the error
enters the interceptor, whose retries are `op 1`, `op 2`, …  `calls` then
counts every attempt of the operation, the initial one included. -/
def runSequence (cfg : RLConfig) (now : Int) (op : Nat → OpOutcome) : HandleTrace :=
  match op 0 with
  | .ok resp =>
    { calls := 1, quotaHits := [], retryEvents := [], result := .success resp }
  | .fail e =>
    let t := interceptOnError cfg now (fun k => op (k + 1)) e
    { t with calls := t.calls + 1 }
  | .failOther tag =>
    { calls := 1, quotaHits := [], retryEvents := [], result := .otherErr tag }

/-! ## The batch processor: `RateLimitBatchProcessor` -/

/-- Error thrown by a per-item operation of the batch processor.
`rateLimit info` is an error whose `isRateLimitError` property is `true`,
carrying `error.rateLimitHeaders` when set (`RateLimitUtils.getRateLimitInfo`
then returns it); `other` is any other thrown value. -/
inductive ProcError where
  | rateLimit (info : Option RateLimitState)
  | other (tag : Nat)
deriving DecidableEq, Repr

/-- One invocation of the progress callback: the `completed` and `total`
arguments plus the optional rate-limit detail argument. -/
structure ProgressEvent where
  completed : Nat
  total : Nat
  info : Option RateLimitState
deriving DecidableEq, Repr

/-- The `RateLimitBatchProcessor` instance: constructor arguments plus the
instance-level `results` and `errors` accumulators (initially empty, and
never reset by `processAll`). -/
structure RateLimitBatchProcessor (T R : Type) where
  items : List T
  processor : T → Except ProcError R
  results : List R := []
  errors : List (T × ProcError) := []

/-- Accumulator state of one `processAll` invocation: the instance fields
plus the local `completed` counter, the progress-callback invocations and the
number of inter-chunk delays slept so far. -/
structure RunAcc (T R : Type) where
  results : List R
  errors : List (T × ProcError)
  progress : List ProgressEvent
  completed : Nat
  delays : Nat

/-- The per-item body of `processAll`'s inner loop
(src/rateLimitUtils.ts 250–273): try the processor; on success push the
result, on failure record `(item, error)` and — for a rate-limit error with
info — fire the progress callback with the detail argument and wait; then
increment `completed` and fire the progress callback. -/
def stepItem {T R : Type} (processor : T → Except ProcError R) (total : Nat)
    (a : RunAcc T R) (item : T) : RunAcc T R :=
  let a1 : RunAcc T R :=
    match processor item with
    | .ok r => { a with results := a.results ++ [r] }
    | .error e =>
      let a' := { a with errors := a.errors ++ [(item, e)] }
      match e with
      | .rateLimit (some info) =>
        { a' with progress := a'.progress ++ [⟨a'.completed, total, some info⟩] }
      | _ => a'
  { a1 with completed := a1.completed + 1,
            progress := a1.progress ++ [⟨a1.completed + 1, total, none⟩] }

/-- Recursion core of the chunked outer loop of `processAll`
(src/rateLimitUtils.ts 247–279): slice off `batchSize` items, run the inner
loop over the slice, sleep 100 ms when more items remain, continue. The loop
consumes at least one item per iteration (for a positive batch size), so the
structural `fuel` — instantiated with `items.length` by the wrapper — never
runs out before the item list does, and the fuel-exhaustion arm is
unreachable. (With `batchSize = 0` the JS loop never advances; the model
returns the accumulator unchanged — every claim uses a positive batch
size.) -/
def goBatchesGo {T R : Type} (processor : T → Except ProcError R) (total : Nat)
    (batchSize : Nat) : Nat → RunAcc T R → List T → RunAcc T R
  | _, a, [] => a
  | 0, a, _ :: _ => a
  | fuel + 1, a, x :: xs =>
    match batchSize with
    | 0 => a
    | b + 1 =>
      let batch := (x :: xs).take (b + 1)
      let rest := (x :: xs).drop (b + 1)
      let a1 := batch.foldl (stepItem processor total) a
      let a2 := if rest.isEmpty then a1 else { a1 with delays := a1.delays + 1 }
      goBatchesGo processor total (b + 1) fuel a2 rest

/-- The chunked outer loop of `processAll`, entered with enough fuel for its
item list. -/
def goBatches {T R : Type} (processor : T → Except ProcError R) (total : Nat)
    (batchSize : Nat) (a : RunAcc T R) (items : List T) : RunAcc T R :=
  goBatchesGo processor total batchSize items.length a items

/-- `RateLimitBatchProcessor.processAll` (src/rateLimitUtils.ts 236–285):
runs the chunked loop starting from the instance's current accumulators and
returns the updated instance (whose `results`/`errors` are exactly the
returned object) together with the progress-callback trace and the number of
inter-chunk delays. -/
def processAll {T R : Type} (p : RateLimitBatchProcessor T R) (batchSize : Nat) :
    RateLimitBatchProcessor T R × List ProgressEvent × Nat :=
  let a0 : RunAcc T R :=
    { results := p.results, errors := p.errors, progress := [],
      completed := 0, delays := 0 }
  let a := goBatches p.processor p.items.length batchSize a0 p.items
  ({ p with results := a.results, errors := a.errors }, a.progress, a.delays)

/-! ## Helper lemmas -/

/-- `ceilDivInt a b` is the mathematical ceiling of `a / b` for `b > 0`,
characterised by the double inequality. -/
theorem ceilDivInt_char (a b : Int) (hb : 0 < b) :
    b * (ceilDivInt a b - 1) < a ∧ a ≤ b * ceilDivInt a b := by
  unfold ceilDivInt
  have h1 := Int.ediv_add_emod (-a) b
  have h2 := Int.emod_nonneg (-a) (by omega : b ≠ 0)
  have h3 := Int.emod_lt_of_pos (-a) hb
  have hdiv : (-a).ediv b = -a / b := rfl
  rw [hdiv]
  have e1 : b * (-(-a / b) - 1) = -(b * (-a / b)) - b := by ring
  have e2 : b * -(-a / b) = -(b * (-a / b)) := by ring
  rw [e1, e2]
  constructor <;> linarith

/-- `(a ++ b).data = a.data ++ b.data` for strings. -/
theorem strData_append (a b : String) : (a ++ b).data = a.data ++ b.data := rfl

/-! ## C4: `getWaitTime` -/

/-- C4: for every state whose `resetAt` lies in the past, `waitTime` is 0;
otherwise, with `remaining > 0` it is the ceiling of the time until reset
divided by `remaining` (characterised by the double inequality), and with
`remaining = 0` it is the full time until reset. -/
theorem c4_getWaitTime_spec (now : Int) (h : RateLimitState) :
    (h.reset < now → getWaitTime now h = 0) ∧
    (now ≤ h.reset → 0 < h.remaining →
      getWaitTime now h = ceilDivInt (h.reset - now) h.remaining ∧
      h.remaining * (getWaitTime now h - 1) < h.reset - now ∧
      h.reset - now ≤ h.remaining * getWaitTime now h) ∧
    (now ≤ h.reset → h.remaining = 0 → getWaitTime now h = h.reset - now) := by
  refine ⟨fun hpast => ?_, fun hfut hrem => ?_, fun hfut hrem => ?_⟩
  · simp [getWaitTime]
    omega
  · rcases eq_or_lt_of_le hfut with heq | hlt
    · have hw : getWaitTime now h = 0 := by simp [getWaitTime, ← heq]
      have hc : ceilDivInt (h.reset - now) h.remaining = 0 := by
        rw [ceilDivInt, ← heq]
        norm_num
        exact Int.zero_ediv h.remaining
      rw [hw, hc, ← heq]
      refine ⟨rfl, ?_, ?_⟩ <;> nlinarith
    · have hw : getWaitTime now h = ceilDivInt (h.reset - now) h.remaining := by
        simp [getWaitTime]
        omega
      have := ceilDivInt_char (h.reset - now) h.remaining hrem
      rw [hw]
      exact ⟨rfl, this.1, this.2⟩
  · rcases eq_or_lt_of_le hfut with heq | hlt
    · simp [getWaitTime, ← heq]
    · simp [getWaitTime, hrem]
      omega

/-- C4 witness: at `now = 100` with reset 999 ms away and 3 requests
remaining, the wait is `⌈999/3⌉ = 333`; with the reset in the past it is 0. -/
theorem c4_witness :
    ((-5 : Int) < 0 ∧ getWaitTime 0 ⟨60, 3, -5, 1⟩ = 0) ∧
    ((100 : Int) ≤ 1099 ∧ (0 : Int) < 3 ∧ getWaitTime 100 ⟨60, 3, 1099, 1⟩ = 333) :=
  ⟨⟨by decide, (c4_getWaitTime_spec 0 ⟨60, 3, -5, 1⟩).1 (by decide)⟩,
   ⟨by decide, by decide,
    by rw [((c4_getWaitTime_spec 100 ⟨60, 3, 1099, 1⟩).2.1 (by decide) (by decide)).1]; decide⟩⟩

/-! ## C5: `getOptimalBatchSize` -/

/-- C5: `optimalBatchSize` equals
`min(max, max(0, remaining − max(5, ⌊limit/10⌋)))`, lies in `[0, max]` for a
non-negative `max`, and is non-decreasing in `remaining` for fixed `limit`
and `max`. -/
theorem c5_getOptimalBatchSize_spec (h : RateLimitState) (maxB : Int) :
    getOptimalBatchSize h maxB =
      min maxB (max 0 (h.remaining - max 5 (h.limit / 10))) ∧
    (0 ≤ maxB → 0 ≤ getOptimalBatchSize h maxB ∧ getOptimalBatchSize h maxB ≤ maxB) ∧
    (∀ h' : RateLimitState, h'.limit = h.limit → h.remaining ≤ h'.remaining →
      getOptimalBatchSize h maxB ≤ getOptimalBatchSize h' maxB) := by
  refine ⟨rfl, fun hmax => ?_, fun h' hlim hrem => ?_⟩
  · simp only [getOptimalBatchSize]
    omega
  · simp only [getOptimalBatchSize, hlim]
    omega

/-- C5 witness: at `limit = 60`, `remaining = 20`, `max = 50` the buffer is
`max(5, 6) = 6` and the batch size is `min(50, 14) = 14`, inside `[0, 50]`,
and not larger than at `remaining = 30`. -/
theorem c5_witness :
    getOptimalBatchSize ⟨60, 20, 0, 0⟩ 50 =
      min 50 (max 0 (20 - max 5 ((60 : Int) / 10))) ∧
    (0 ≤ getOptimalBatchSize ⟨60, 20, 0, 0⟩ 50 ∧
      getOptimalBatchSize ⟨60, 20, 0, 0⟩ 50 ≤ 50) ∧
    getOptimalBatchSize ⟨60, 20, 0, 0⟩ 50 ≤ getOptimalBatchSize ⟨60, 30, 0, 0⟩ 50 :=
  ⟨(c5_getOptimalBatchSize_spec ⟨60, 20, 0, 0⟩ 50).1,
   (c5_getOptimalBatchSize_spec ⟨60, 20, 0, 0⟩ 50).2.1 (by decide),
   (c5_getOptimalBatchSize_spec ⟨60, 20, 0, 0⟩ 50).2.2 ⟨60, 30, 0, 0⟩ rfl (by decide)⟩

/-! ## C7: usage percentage and status message at `remaining = 0` -/

/-- C7: for every state with `remaining = 0` and `limit > 0`, the usage
percentage is exactly 100 and the status message contains the literal
`"Rate limit reached"` as well as the `"0/<limit>"` fragment. -/
theorem c7_rate_limit_reached (h : RateLimitState) (hl : 0 < h.limit)
    (hr : h.remaining = 0) :
    getRateLimitUsagePercent h = 100 ∧
    strContainsSub (getRateLimitStatus h) "Rate limit reached" ∧
    strContainsSub (getRateLimitStatus h) ("0/" ++ toString h.limit) := by
  have hlq : (h.limit : ℚ) ≠ 0 := by
    exact_mod_cast hl.ne'
  have hu : getRateLimitUsagePercent h = 100 := by
    unfold getRateLimitUsagePercent jsRound
    rw [hr]
    push_cast
    rw [sub_zero, div_self hlq]
    norm_num [Int.floor_eq_iff]
  have hs : (getRateLimitStatus h).data =
      ("Rate limit reached (0/").data ++ ((toString h.limit).data ++
        (("). Resets at ").data ++ (jsToLocaleTimeString h.reset).data)) := by
    simp [getRateLimitStatus, hr, strData_append, List.append_assoc]
  have key1 : ("Rate limit reached (0/").data =
      ("Rate limit reached").data ++ (" (0/").data := by decide
  have key2 : ("Rate limit reached (0/").data =
      ("Rate limit reached (").data ++ ("0/").data := by decide
  refine ⟨hu, ?_, ?_⟩
  · refine ⟨[], (" (0/").data ++ ((toString h.limit).data ++
      (("). Resets at ").data ++ (jsToLocaleTimeString h.reset).data)), ?_⟩
    rw [hs, key1]
    simp [List.append_assoc]
  · refine ⟨("Rate limit reached (").data,
      ("). Resets at ").data ++ (jsToLocaleTimeString h.reset).data, ?_⟩
    rw [hs, key2, strData_append]
    simp [List.append_assoc]

/-- C7 witness: the state `{limit := 60, remaining := 0}`. -/
theorem c7_witness :
    getRateLimitUsagePercent ⟨60, 0, 12345, 1⟩ = 100 ∧
    strContainsSub (getRateLimitStatus ⟨60, 0, 12345, 1⟩) "Rate limit reached" ∧
    strContainsSub (getRateLimitStatus ⟨60, 0, 12345, 1⟩) ("0/" ++ toString (60 : Int)) :=
  c7_rate_limit_reached ⟨60, 0, 12345, 1⟩ (by decide) rfl

/-! ## C3: `calculateBatchDelay` -/

/-- C3 counterexample: at `remaining = 0`, `plannedOps = 0` and a reset
1000 ms in the future, the claim's first rule (`plannedOps ≤ remaining → 0`)
applies, yet the code's `remaining <= 0` branch fires first and returns the
full 1000 ms. -/
theorem c3_counterexample :
    (0 : Int) ≤ (⟨60, 0, 1000, 60⟩ : RateLimitState).remaining ∧
    calculateBatchDelay 0 ⟨60, 0, 1000, 60⟩ 0 ≠ 0 ∧
    calculateBatchDelay 0 ⟨60, 0, 1000, 60⟩ 0 = 1000 := by decide

/-- C3 amended: the `remaining ≤ 0` rule takes precedence and is clamped at
0; only then does `plannedOps ≤ remaining` give 0; otherwise the delay is 0
when the reset has already passed, else the ceiling of the time until reset
divided by `remaining`. -/
theorem c3_calculateBatchDelay_spec (now : Int) (h : RateLimitState) (ops : Int) :
    (h.remaining ≤ 0 → calculateBatchDelay now h ops = max 0 (h.reset - now)) ∧
    (0 < h.remaining → ops ≤ h.remaining → calculateBatchDelay now h ops = 0) ∧
    (0 < h.remaining → h.remaining < ops → h.reset ≤ now →
      calculateBatchDelay now h ops = 0) ∧
    (0 < h.remaining → h.remaining < ops → now < h.reset →
      calculateBatchDelay now h ops = ceilDivInt (h.reset - now) h.remaining ∧
      h.remaining * (calculateBatchDelay now h ops - 1) < h.reset - now ∧
      h.reset - now ≤ h.remaining * calculateBatchDelay now h ops) := by
  refine ⟨fun h0 => ?_, fun hp hle => ?_, fun hp hgt hpast => ?_, fun hp hgt hfut => ?_⟩
  · simp [calculateBatchDelay, h0]
  · simp only [calculateBatchDelay]
    rw [if_neg (by omega), if_pos hle]
  · simp only [calculateBatchDelay]
    rw [if_neg (by omega), if_neg (by omega), if_pos (by omega)]
  · have hd : calculateBatchDelay now h ops = ceilDivInt (h.reset - now) h.remaining := by
      simp only [calculateBatchDelay]
      rw [if_neg (by omega), if_neg (by omega), if_neg (by omega)]
    have := ceilDivInt_char (h.reset - now) h.remaining hp
    rw [hd]
    exact ⟨rfl, this.1, this.2⟩

/-- C3 witness for the amended claim: the three interesting branches at
concrete states. -/
theorem c3_witness :
    calculateBatchDelay 0 ⟨60, 0, 1000, 60⟩ 0 = max 0 1000 ∧
    calculateBatchDelay 0 ⟨60, 5, 1000, 60⟩ 3 = 0 ∧
    calculateBatchDelay 0 ⟨60, 3, 1000, 60⟩ 7 = 334 :=
  ⟨(c3_calculateBatchDelay_spec 0 ⟨60, 0, 1000, 60⟩ 0).1 (by decide),
   (c3_calculateBatchDelay_spec 0 ⟨60, 5, 1000, 60⟩ 3).2.1 (by decide) (by decide),
   by
    rw [((c3_calculateBatchDelay_spec 0 ⟨60, 3, 1000, 60⟩ 7).2.2.2 (by decide)
      (by decide) (by decide)).1]
    decide⟩

/-! ## C6: missing headers -/

/-- C6: whenever any one of the four required headers is absent, the parser
returns `none` — never a partially populated state. -/
theorem c6_parse_missing_header (resp : AxiosResponse)
    (hmiss : resp.headers.limit = none ∨ resp.headers.remaining = none ∨
      resp.headers.reset = none ∨ resp.headers.retryAfter = none) :
    parseRateLimitHeaders resp = none ∧
    ∀ st : RateLimitHeaders, parseRateLimitHeaders resp ≠ some st := by
  have hnone : parseRateLimitHeaders resp = none := by
    unfold parseRateLimitHeaders
    rcases hmiss with hm | hm | hm | hm <;> simp [hm, headerTruthy]
  exact ⟨hnone, fun st hsome => by rw [hnone] at hsome; exact Option.noConfusion hsome⟩

/-- C6 witness: a header map missing `x-ratelimit-remaining` yields no state
(in particular not a state with `remaining = 0`). -/
theorem c6_witness :
    parseRateLimitHeaders ⟨429, ⟨some "60", none, some "5", some "1"⟩⟩ = none ∧
    ∀ st : RateLimitHeaders,
      parseRateLimitHeaders ⟨429, ⟨some "60", none, some "5", some "1"⟩⟩ ≠ some st :=
  c6_parse_missing_header ⟨429, ⟨some "60", none, some "5", some "1"⟩⟩
    (Or.inr (Or.inl rfl))

/-! ## C9: present but non-numeric header values -/

/-- C9 counterexample: the empty string is a present, non-numeric header
value (`parseInt("") = NaN`), yet it is falsy, so the parser returns `none`
for it — the claim's universal statement fails. -/
theorem c9_counterexample :
    jsParseInt "" = .nan ∧
    (⟨200, ⟨some "", some "", some "", some ""⟩⟩ : AxiosResponse).headers.remaining =
      some "" ∧
    parseRateLimitHeaders ⟨200, ⟨some "", some "", some "", some ""⟩⟩ = none := by
  decide

/-- C9 amended: for all four headers present with *non-empty* non-numeric
values, the parser does return a state, and its `limit`, `remaining` and
`retryAfter` fields are `NaN` (the reset field is whatever unvalidated date
parsing yields). -/
theorem c9_nan_state (status : Int) (l r rs ra : String)
    (hl : l ≠ "") (hr : r ≠ "") (hrs : rs ≠ "") (hra : ra ≠ "")
    (hln : jsParseInt l = .nan) (hrn : jsParseInt r = .nan)
    (hran : jsParseInt ra = .nan) :
    parseRateLimitHeaders ⟨status, ⟨some l, some r, some rs, some ra⟩⟩ =
      some ⟨.nan, .nan, jsDateParse rs, .nan⟩ := by
  have htr : ∀ s : String, s ≠ "" → headerTruthy (some s) = true := by
    intro s hs
    have : s.isEmpty = false := by
      rw [← Bool.not_eq_true, String.isEmpty_iff]
      exact hs
    simp [headerTruthy, this]
  unfold parseRateLimitHeaders
  simp [htr l hl, htr r hr, htr rs hrs, htr ra hra, hln, hrn, hran]

/-- C9 witness: all four headers present with non-numeric values. -/
theorem c9_witness :
    parseRateLimitHeaders ⟨429, ⟨some "abc", some "xy", some "soon", some "zz"⟩⟩ =
      some ⟨.nan, .nan, .nan, .nan⟩ := by
  rw [c9_nan_state 429 "abc" "xy" "soon" "zz" (by decide) (by decide) (by decide)
    (by decide) (by decide) (by decide) (by decide)]
  decide

/-! ## Retry coordinator lemmas -/

/-- `handleRateLimit` exit case: a non-429 error, or an exhausted attempt
budget, immediately raises the typed rate-limit error wrapping the current
failure, with no further invocation of the operation. -/
theorem handleRateLimit_exit (cfg : RLConfig) (now : Int) (op : Nat → OpOutcome)
    (e : AxiosError) (attempt callIdx : Nat)
    (h : isRateLimitError e = false ∨ cfg.rateLimitRetryAttempts ≤ attempt) :
    handleRateLimit cfg now op e attempt callIdx =
      ⟨0, [], [], .rateLimitErr (createRateLimitError now e)⟩ := by
  unfold handleRateLimit handleRateLimitGo
  rw [if_pos h]

/-- `handleRateLimit` retry case with parseable headers: fire `onRateLimitHit`
iff `attempt = 0`, fire `onRateLimitRetry` with `attempt + 1`, then invoke the
operation and either succeed, recurse on an axios-like failure, or rethrow. -/
theorem handleRateLimit_step (cfg : RLConfig) (now : Int) (op : Nat → OpOutcome)
    (e : AxiosError) (attempt callIdx : Nat) (hd : RateLimitHeaders)
    (hlt : attempt < cfg.rateLimitRetryAttempts)
    (h429 : isRateLimitError e = true)
    (hp : e.response.bind parseRateLimitHeaders = some hd) :
    handleRateLimit cfg now op e attempt callIdx =
      match op callIdx with
      | .ok resp =>
        ⟨1, if attempt = 0 then [hd] else [], [(attempt + 1, hd)], .success resp⟩
      | .fail e' =>
        let t := handleRateLimit cfg now op e' (attempt + 1) (callIdx + 1)
        ⟨t.calls + 1, (if attempt = 0 then [hd] else []) ++ t.quotaHits,
          [(attempt + 1, hd)] ++ t.retryEvents, t.result⟩
      | .failOther tag =>
        ⟨1, if attempt = 0 then [hd] else [], [(attempt + 1, hd)], .otherErr tag⟩ := by
  have hcond : ¬(isRateLimitError e = false ∨ cfg.rateLimitRetryAttempts ≤ attempt) := by
    simp [h429]
    omega
  have hfuel : cfg.rateLimitRetryAttempts + 1 - attempt =
      (cfg.rateLimitRetryAttempts + 1 - (attempt + 1)) + 1 := by omega
  unfold handleRateLimit
  rw [hfuel]
  conv_lhs => rw [handleRateLimitGo]
  rw [if_neg hcond]
  simp only [hp]

/-! ## C1: exhaustion after maxAttempts retries -/

/-- C1: with `rateLimitRetryAttempts = 3` and an operation that fails with
HTTP 429 and parseable rate-limit headers on every attempt, the operation is
attempted exactly 4 times in total (the initial call plus 3 retries),
`onRateLimitHit` fires exactly once (with the first parsed state),
`onRateLimitRetry` fires exactly three times with attempt numbers 1, 2, 3 and
the parsed states, and the call ends by raising the typed rate-limit error. -/
theorem c1_retry_exhaustion (cfg : RLConfig) (now : Int)
    (hA : cfg.rateLimitRetryAttempts = 3)
    (resps : Nat → AxiosResponse) (hds : Nat → RateLimitHeaders)
    (hstatus : ∀ k, (resps k).status = 429)
    (hparse : ∀ k, parseRateLimitHeaders (resps k) = some (hds k)) :
    (runSequence cfg now (fun k => .fail ⟨some (resps k)⟩)).calls = 4 ∧
    (runSequence cfg now (fun k => .fail ⟨some (resps k)⟩)).quotaHits = [hds 0] ∧
    (runSequence cfg now (fun k => .fail ⟨some (resps k)⟩)).retryEvents =
      [(1, hds 0), (2, hds 1), (3, hds 2)] ∧
    (runSequence cfg now (fun k => .fail ⟨some (resps k)⟩)).result =
      .rateLimitErr (createRateLimitError now ⟨some (resps 3)⟩) ∧
    (createRateLimitError now ⟨some (resps 3)⟩).isRateLimitErrorFlag = true := by
  have h429 : ∀ k, isRateLimitError ⟨some (resps k)⟩ = true := fun k => by
    simp [isRateLimitError, hstatus k]
  have hbind : ∀ k,
      (⟨some (resps k)⟩ : AxiosError).response.bind parseRateLimitHeaders =
        some (hds k) := fun k => by
    simp [hparse k]
  have t3 : handleRateLimit cfg now (fun k => .fail ⟨some (resps (k + 1))⟩)
      ⟨some (resps 3)⟩ 3 3 =
      ⟨0, [], [], .rateLimitErr (createRateLimitError now ⟨some (resps 3)⟩)⟩ :=
    handleRateLimit_exit _ _ _ _ _ _ (Or.inr (by omega))
  have t2 : handleRateLimit cfg now (fun k => .fail ⟨some (resps (k + 1))⟩)
      ⟨some (resps 2)⟩ 2 2 =
      ⟨1, [], [(3, hds 2)],
        .rateLimitErr (createRateLimitError now ⟨some (resps 3)⟩)⟩ := by
    rw [handleRateLimit_step cfg now _ _ 2 2 (hds 2) (by omega) (h429 2) (hbind 2)]
    simp only []
    rw [t3]
    simp
  have t1 : handleRateLimit cfg now (fun k => .fail ⟨some (resps (k + 1))⟩)
      ⟨some (resps 1)⟩ 1 1 =
      ⟨2, [], [(2, hds 1), (3, hds 2)],
        .rateLimitErr (createRateLimitError now ⟨some (resps 3)⟩)⟩ := by
    rw [handleRateLimit_step cfg now _ _ 1 1 (hds 1) (by omega) (h429 1) (hbind 1)]
    simp only []
    rw [t2]
    simp
  have t0 : handleRateLimit cfg now (fun k => .fail ⟨some (resps (k + 1))⟩)
      ⟨some (resps 0)⟩ 0 0 =
      ⟨3, [hds 0], [(1, hds 0), (2, hds 1), (3, hds 2)],
        .rateLimitErr (createRateLimitError now ⟨some (resps 3)⟩)⟩ := by
    rw [handleRateLimit_step cfg now _ _ 0 0 (hds 0) (by omega) (h429 0) (hbind 0)]
    simp only []
    rw [t1]
    simp
  have hrun : runSequence cfg now (fun k => .fail ⟨some (resps k)⟩) =
      ⟨4, [hds 0], [(1, hds 0), (2, hds 1), (3, hds 2)],
        .rateLimitErr (createRateLimitError now ⟨some (resps 3)⟩)⟩ := by
    unfold runSequence interceptOnError
    simp only [h429 0, if_pos]
    rw [t0]
  rw [hrun]
  exact ⟨rfl, rfl, rfl, rfl, rfl⟩

/-- C1 witness: a concrete always-429 operation with headers
`limit=60, remaining=0, reset="5", retry-after=1` under a 3-attempt budget. -/
theorem c1_witness :
    (runSequence ⟨3, 1000⟩ 0
      (fun _ => .fail ⟨some ⟨429, ⟨some "60", some "0", some "5", some "1"⟩⟩⟩)).calls = 4 ∧
    (runSequence ⟨3, 1000⟩ 0
      (fun _ => .fail ⟨some ⟨429, ⟨some "60", some "0", some "5", some "1"⟩⟩⟩)).quotaHits =
      [⟨.int 60, .int 0, .int 5, .int 1⟩] ∧
    (runSequence ⟨3, 1000⟩ 0
      (fun _ => .fail ⟨some ⟨429, ⟨some "60", some "0", some "5", some "1"⟩⟩⟩)).retryEvents =
      [(1, ⟨.int 60, .int 0, .int 5, .int 1⟩), (2, ⟨.int 60, .int 0, .int 5, .int 1⟩),
        (3, ⟨.int 60, .int 0, .int 5, .int 1⟩)] ∧
    (runSequence ⟨3, 1000⟩ 0
      (fun _ => .fail ⟨some ⟨429, ⟨some "60", some "0", some "5", some "1"⟩⟩⟩)).result =
      .rateLimitErr
        (createRateLimitError 0 ⟨some ⟨429, ⟨some "60", some "0", some "5", some "1"⟩⟩⟩) := by
  have h := c1_retry_exhaustion ⟨3, 1000⟩ 0 rfl
    (fun _ => ⟨429, ⟨some "60", some "0", some "5", some "1"⟩⟩)
    (fun _ => ⟨.int 60, .int 0, .int 5, .int 1⟩)
    (fun _ => rfl) (fun _ => rfl)
  exact ⟨h.1, h.2.1, h.2.2.1, h.2.2.2.1⟩

/-! ## C2: non-429 failures -/

/-- C2 counterexample: a 429 failure with valid headers whose single retry
fails with HTTP 500. The non-429 failure is not retried, but it does not
propagate unchanged either — the coordinator wraps it into the typed
rate-limit error with the synthesized fallback state, so the caller sees
"Rate limit exceeded" instead of the 500 failure. -/
theorem c2_counterexample :
    (interceptOnError ⟨3, 1000⟩ 0
      (fun _ => .fail ⟨some ⟨500, ⟨none, none, none, none⟩⟩⟩)
      ⟨some ⟨429, ⟨some "60", some "0", some "5", some "1"⟩⟩⟩).calls = 1 ∧
    (interceptOnError ⟨3, 1000⟩ 0
      (fun _ => .fail ⟨some ⟨500, ⟨none, none, none, none⟩⟩⟩)
      ⟨some ⟨429, ⟨some "60", some "0", some "5", some "1"⟩⟩⟩).result =
      .rateLimitErr ⟨"RateLimitError", "Rate limit exceeded. Please try again later.",
        true, ⟨.int 60, .int 0, .int 60000, .int 60⟩⟩ ∧
    (interceptOnError ⟨3, 1000⟩ 0
      (fun _ => .fail ⟨some ⟨500, ⟨none, none, none, none⟩⟩⟩)
      ⟨some ⟨429, ⟨some "60", some "0", some "5", some "1"⟩⟩⟩).result ≠
      .originalErr ⟨some ⟨500, ⟨none, none, none, none⟩⟩⟩ := by
  decide

/-- C2 amended: a failure whose status is not 429 is never retried and
surfaces immediately; as the *initial* failure it propagates unchanged (the
interceptor rejects the original error without touching the coordinator), but
*inside* the coordinator (i.e. arising from a retry) it is wrapped into the
typed rate-limit error before propagating; and only status 429 is classified
as quota-exceeded. -/
theorem c2_non429_surfaces_immediately (cfg : RLConfig) (now : Int)
    (op : Nat → OpOutcome) (e : AxiosError) (hne : isRateLimitError e = false) :
    interceptOnError cfg now op e = ⟨0, [], [], .originalErr e⟩ ∧
    (∀ attempt callIdx : Nat, handleRateLimit cfg now op e attempt callIdx =
      ⟨0, [], [], .rateLimitErr (createRateLimitError now e)⟩) ∧
    (∀ e' : AxiosError, isRateLimitError e' = true ↔
      ∃ r, e'.response = some r ∧ r.status = 429) := by
  refine ⟨?_, fun attempt callIdx => handleRateLimit_exit _ _ _ _ _ _ (Or.inl hne), ?_⟩
  · unfold interceptOnError
    simp [hne]
  · intro e'
    cases he : e'.response with
    | none => simp [isRateLimitError, he]
    | some r => simp [isRateLimitError, he]

/-- C2 witness: a plain HTTP 500 failure entering the interceptor propagates
unchanged with zero retries, and the same failure handed to the coordinator
mid-sequence is wrapped. -/
theorem c2_witness :
    interceptOnError ⟨3, 1000⟩ 0 (fun _ => .failOther 0)
      ⟨some ⟨500, ⟨none, none, none, none⟩⟩⟩ =
      ⟨0, [], [], .originalErr ⟨some ⟨500, ⟨none, none, none, none⟩⟩⟩⟩ ∧
    handleRateLimit ⟨3, 1000⟩ 0 (fun _ => .failOther 0)
      ⟨some ⟨500, ⟨none, none, none, none⟩⟩⟩ 1 1 =
      ⟨0, [], [],
        .rateLimitErr (createRateLimitError 0 ⟨some ⟨500, ⟨none, none, none, none⟩⟩⟩)⟩ := by
  have h := c2_non429_surfaces_immediately ⟨3, 1000⟩ 0 (fun _ => .failOther 0)
    ⟨some ⟨500, ⟨none, none, none, none⟩⟩⟩ (by decide)
  exact ⟨h.1, h.2.1 1 1⟩

/-! ## Batch processor lemmas -/

/-- The successes a run over `items` appends, in completion order. -/
def expectedResults {T R : Type} (proc : T → Except ProcError R) (items : List T) :
    List R :=
  items.filterMap (fun t => (proc t).toOption)

/-- The `(item, error)` pairs a run over `items` appends, in order. -/
def expectedErrors {T R : Type} (proc : T → Except ProcError R) (items : List T) :
    List (T × ProcError) :=
  items.filterMap (fun t =>
    match proc t with
    | .error e => some (t, e)
    | .ok _ => none)

/-- The progress-callback invocations a run over `items` produces, starting
from completed count `start`. -/
def expectedProgress {T R : Type} (proc : T → Except ProcError R) (total : Nat) :
    Nat → List T → List ProgressEvent
  | _, [] => []
  | start, x :: xs =>
    (match proc x with
     | .error (.rateLimit (some info)) => [⟨start, total, some info⟩]
     | _ => []) ++
    ⟨start + 1, total, none⟩ :: expectedProgress proc total (start + 1) xs

/-- The inner per-chunk fold is described by the expected-trace functions. -/
theorem foldl_stepItem_spec {T R : Type} (proc : T → Except ProcError R) (total : Nat) :
    ∀ (batch : List T) (a : RunAcc T R),
      batch.foldl (stepItem proc total) a =
        { results := a.results ++ expectedResults proc batch,
          errors := a.errors ++ expectedErrors proc batch,
          progress := a.progress ++ expectedProgress proc total a.completed batch,
          completed := a.completed + batch.length,
          delays := a.delays } := by
  intro batch
  induction batch with
  | nil =>
    intro a
    simp [expectedResults, expectedErrors, expectedProgress]
  | cons x xs ih =>
    intro a
    rw [List.foldl_cons, ih]
    rcases hx : proc x with err | r
    · rcases err with info | tag
      · rcases info with _ | info
        · simp [stepItem, hx, expectedResults, expectedErrors, expectedProgress,
            List.filterMap_cons, List.append_assoc, Except.toOption]
          omega
        · simp [stepItem, hx, expectedResults, expectedErrors, expectedProgress,
            List.filterMap_cons, List.append_assoc, Except.toOption]
          omega
      · simp [stepItem, hx, expectedResults, expectedErrors, expectedProgress,
          List.filterMap_cons, List.append_assoc, Except.toOption]
        omega
    · simp [stepItem, hx, expectedResults, expectedErrors, expectedProgress,
        List.filterMap_cons, List.append_assoc, Except.toOption]
      omega

/-- `expectedProgress` over a concatenation splits, with the start cursor
advanced by the first part's length. -/
theorem expectedProgress_append {T R : Type} (proc : T → Except ProcError R)
    (total : Nat) :
    ∀ (xs ys : List T) (start : Nat),
      expectedProgress proc total start (xs ++ ys) =
        expectedProgress proc total start xs ++
          expectedProgress proc total (start + xs.length) ys := by
  intro xs
  induction xs with
  | nil =>
    intro ys start
    simp [expectedProgress]
  | cons x xs ih =>
    intro ys start
    have harith : start + 1 + xs.length = start + (xs.length + 1) := by omega
    simp [expectedProgress, ih, List.append_assoc, harith]

/-- The chunked loop is described by the same expected-trace functions: the
chunking affects only the number of inter-chunk delays,
`⌈length / bs⌉ − 1 = (length − 1) / bs` for a non-empty list. -/
theorem goBatchesGo_spec {T R : Type} (proc : T → Except ProcError R) (total : Nat)
    (b : Nat) :
    ∀ (fuel : Nat) (items : List T) (a : RunAcc T R), items.length ≤ fuel →
      goBatchesGo proc total (b + 1) fuel a items =
        { results := a.results ++ expectedResults proc items,
          errors := a.errors ++ expectedErrors proc items,
          progress := a.progress ++ expectedProgress proc total a.completed items,
          completed := a.completed + items.length,
          delays := a.delays +
            (if items.isEmpty then 0 else (items.length - 1) / (b + 1)) } := by
  intro fuel
  induction fuel with
  | zero =>
    intro items a hlen
    have hnil : items = [] := List.eq_nil_of_length_eq_zero (by omega)
    subst hnil
    simp [goBatchesGo, expectedResults, expectedErrors, expectedProgress]
  | succ fuel ih =>
    intro items a hlen
    cases items with
    | nil =>
      simp [goBatchesGo, expectedResults, expectedErrors, expectedProgress]
    | cons x xs =>
      rw [goBatchesGo]
      simp only [List.take_succ_cons, List.drop_succ_cons]
      rw [foldl_stepItem_spec]
      have hrest : (xs.drop b).length ≤ fuel := by
        simp only [List.length_drop]
        simp only [List.length_cons] at hlen
        omega
      rw [ih _ _ hrest]
      have hsplit : x :: xs = (x :: xs.take b) ++ xs.drop b := by
        simp [List.take_append_drop]
      by_cases hempty : (xs.drop b).isEmpty
      · have hdnil : xs.drop b = [] := by
          simpa [List.isEmpty_iff] using hempty
        have hlen2 : xs.length ≤ b := by
          have := congrArg List.length hdnil
          simp [List.length_drop] at this
          omega
        have htake : xs.take b = xs := List.take_of_length_le hlen2
        rw [hempty]
        simp only [if_true]
        rw [hdnil] at hsplit ⊢
        simp only [List.append_nil] at hsplit
        rw [← hsplit]
        simp [expectedResults, expectedErrors, expectedProgress, htake]
        rw [Nat.div_eq_of_lt (by omega)]
      · rw [if_neg (by simp [hempty])]
        conv_rhs => rw [hsplit]
        simp only [expectedResults, expectedErrors] at *
        rw [List.filterMap_append, List.filterMap_append, expectedProgress_append]
        have hne : xs.drop b ≠ [] := by
          intro hc
          rw [hc] at hempty
          simp at hempty
        have hlen3 : b + 1 ≤ xs.length := by
          by_contra hc
          exact hne (List.drop_eq_nil_of_le (by omega))
        have hdiv : (xs.length - b - 1) / (b + 1) + 1 = ((x :: xs).length - 1) / (b + 1) := by
          simp only [List.length_cons]
          have h1 : xs.length + 1 - 1 = (xs.length - b - 1) + (b + 1) := by omega
          rw [h1, Nat.add_div_right _ (by omega)]
        simp [List.append_assoc, List.length_take, List.length_drop]
        constructor
        · omega
        · rw [if_neg (show ¬ xs.length ≤ b from by omega)]
          have hd2 : (xs.length - b - 1) / (b + 1) + 1 = xs.length / (b + 1) := by
            simpa using hdiv
          linarith [hd2]

/-- `processAll` on an instance, for a positive batch size: it appends the
run's successes and failures to the instance accumulators, reports progress
from a fresh `completed = 0` cursor, and sleeps once between consecutive
chunks. -/
theorem processAll_spec {T R : Type} (p : RateLimitBatchProcessor T R) (bs : Nat)
    (hbs : 0 < bs) :
    processAll p bs =
      ({ p with results := p.results ++ expectedResults p.processor p.items,
                errors := p.errors ++ expectedErrors p.processor p.items },
       expectedProgress p.processor p.items.length 0 p.items,
       if p.items.isEmpty then 0 else (p.items.length - 1) / bs) := by
  obtain ⟨b, rfl⟩ : ∃ b, bs = b + 1 := ⟨bs - 1, by omega⟩
  simp only [processAll, goBatches]
  rw [goBatchesGo_spec p.processor p.items.length b p.items.length p.items _ (le_refl _)]
  simp

/-- The `completed` arguments of the unconditional (post-item) progress
invocations. -/
def progressCounts (evs : List ProgressEvent) : List Nat :=
  evs.filterMap (fun ev =>
    match ev.info with
    | none => some ev.completed
    | some _ => none)

/-- The post-item progress invocations carry the counts
`start+1, start+2, …, start+length` in order — strictly increasing. -/
theorem progressCounts_expected {T R : Type} (proc : T → Except ProcError R)
    (total : Nat) :
    ∀ (items : List T) (start : Nat),
      progressCounts (expectedProgress proc total start items) =
        List.range' (start + 1) items.length := by
  intro items
  induction items with
  | nil =>
    intro start
    simp [expectedProgress, progressCounts]
  | cons x xs ih =>
    intro start
    rw [List.length_cons, List.range'_succ]
    rcases hx : proc x with err | r
    · rcases err with info | tag
      · rcases info with _ | info
        · simp [expectedProgress, progressCounts, hx, List.filterMap_cons]
          exact ih (start + 1)
        · simp [expectedProgress, progressCounts, hx, List.filterMap_cons]
          exact ih (start + 1)
      · simp [expectedProgress, progressCounts, hx, List.filterMap_cons]
        exact ih (start + 1)
    · simp [expectedProgress, progressCounts, hx, List.filterMap_cons]
      exact ih (start + 1)

/-- Every item is accounted for: successes and failures partition the items. -/
theorem expected_length_partition {T R : Type} (proc : T → Except ProcError R) :
    ∀ items : List T,
      (expectedResults proc items).length + (expectedErrors proc items).length =
        items.length := by
  intro items
  induction items with
  | nil => simp [expectedResults, expectedErrors]
  | cons x xs ih =>
    rcases hx : proc x with err | r <;>
      simp [expectedResults, expectedErrors, List.filterMap_cons, hx,
        Except.toOption] at * <;>
      omega

/-- On an all-succeeding item list there are no failures, and as many
successes and post-item progress invocations as items. -/
theorem expected_all_ok {T R : Type} (proc : T → Except ProcError R) (total : Nat) :
    ∀ (items : List T) (start : Nat), (∀ t ∈ items, ∃ r, proc t = .ok r) →
      (expectedResults proc items).length = items.length ∧
      expectedErrors proc items = [] ∧
      (expectedProgress proc total start items).length = items.length := by
  intro items
  induction items with
  | nil =>
    intro start _
    simp [expectedResults, expectedErrors, expectedProgress]
  | cons x xs ih =>
    intro start hall
    obtain ⟨r, hr⟩ := hall x (by simp)
    have hxs := ih (start + 1) (fun t ht => hall t (by simp [ht]))
    simp [expectedResults, expectedErrors, expectedProgress, List.filterMap_cons,
      hr, Except.toOption] at *
    exact ⟨hxs.1, hxs.2.1, hxs.2.2⟩

/-! ## C8: fail-soft batch processing -/

/-- C8: on a fresh processor, `processAll` processes every item even when
some fail — successes are appended in completion order
(`items.filterMap (toOption ∘ proc)`), each failure is recorded as an
`(item, error)` pair, successes and failures together account for every
item, the post-item progress invocations carry the strictly increasing
counts `1, …, n`, and on an all-succeeding list there are as many successes
and progress invocations as items and no errors. -/
theorem c8_processAll_fail_soft {T R : Type} (items : List T)
    (proc : T → Except ProcError R) (bs : Nat) (hbs : 0 < bs) :
    (processAll ⟨items, proc, [], []⟩ bs).1.results = expectedResults proc items ∧
    (processAll ⟨items, proc, [], []⟩ bs).1.errors = expectedErrors proc items ∧
    (processAll ⟨items, proc, [], []⟩ bs).1.results.length +
      (processAll ⟨items, proc, [], []⟩ bs).1.errors.length = items.length ∧
    progressCounts (processAll ⟨items, proc, [], []⟩ bs).2.1 =
      List.range' 1 items.length ∧
    ((∀ t ∈ items, ∃ r, proc t = .ok r) →
      (processAll ⟨items, proc, [], []⟩ bs).1.errors = [] ∧
      (processAll ⟨items, proc, [], []⟩ bs).1.results.length = items.length ∧
      (processAll ⟨items, proc, [], []⟩ bs).2.1.length = items.length) := by
  have hspec := processAll_spec ⟨items, proc, [], []⟩ bs hbs
  rw [hspec]
  simp only [List.nil_append]
  refine ⟨trivial, trivial, expected_length_partition proc items, ?_, fun hall => ?_⟩
  · simpa using progressCounts_expected proc items.length items 0
  · have h := expected_all_ok proc items.length items 0 hall
    exact ⟨h.2.1, h.1, h.2.2⟩

/-- C8 witness: 23 all-succeeding items with batch size 10 — 23 successes, no
errors, 23 progress invocations with counts 1, …, 23, and 2 inter-chunk
delays. -/
theorem c8_witness :
    (processAll ⟨List.range 23, fun n => (Except.ok n : Except ProcError Nat), [], []⟩
      10).1.errors = [] ∧
    (processAll ⟨List.range 23, fun n => (Except.ok n : Except ProcError Nat), [], []⟩
      10).1.results.length = 23 ∧
    (processAll ⟨List.range 23, fun n => (Except.ok n : Except ProcError Nat), [], []⟩
      10).2.1.length = 23 ∧
    progressCounts
      (processAll ⟨List.range 23, fun n => (Except.ok n : Except ProcError Nat), [], []⟩
        10).2.1 = List.range' 1 23 ∧
    (processAll ⟨List.range 23, fun n => (Except.ok n : Except ProcError Nat), [], []⟩
      10).2.2 = 2 := by
  have h := c8_processAll_fail_soft (List.range 23)
    (fun n => (Except.ok n : Except ProcError Nat)) 10 (by decide)
  have hall : ∀ t ∈ List.range 23, ∃ r,
      (fun n => (Except.ok n : Except ProcError Nat)) t = .ok r :=
    fun t _ => ⟨t, rfl⟩
  have hc := h.2.2.2.2 hall
  refine ⟨hc.1, ?_, ?_, ?_, by decide⟩
  · simpa using hc.2.1
  · simpa using hc.2.2
  · simpa using h.2.2.2.1

/-! ## C10: instance accumulators are never reset -/

/-- C10: `results` and `errors` live on the instance and are never cleared:
one run appends to whatever is already there while `items` and `processor`
are unchanged, so a second run on the same instance re-processes all items
and returns arrays still holding every first-run entry — twice the successes
after two all-succeeding runs from a fresh instance. -/
theorem c10_accumulators_never_reset {T R : Type} (p : RateLimitBatchProcessor T R)
    (bs : Nat) (hbs : 0 < bs) :
    ((processAll p bs).1.results = p.results ++ expectedResults p.processor p.items ∧
     (processAll p bs).1.errors = p.errors ++ expectedErrors p.processor p.items ∧
     (processAll p bs).1.items = p.items ∧
     (processAll p bs).1.processor = p.processor) ∧
    ((processAll (processAll p bs).1 bs).1.results =
      (processAll p bs).1.results ++ expectedResults p.processor p.items ∧
     (processAll (processAll p bs).1 bs).1.errors =
      (processAll p bs).1.errors ++ expectedErrors p.processor p.items) ∧
    (p.results = [] → (∀ t ∈ p.items, ∃ r, p.processor t = .ok r) →
      (processAll (processAll p bs).1 bs).1.results.length = 2 * p.items.length) := by
  have h1 := processAll_spec p bs hbs
  have hitems : (processAll p bs).1.items = p.items := by rw [h1]
  have hproc : (processAll p bs).1.processor = p.processor := by rw [h1]
  have hres : (processAll p bs).1.results =
      p.results ++ expectedResults p.processor p.items := by rw [h1]
  have herr : (processAll p bs).1.errors =
      p.errors ++ expectedErrors p.processor p.items := by rw [h1]
  have h2 := processAll_spec (processAll p bs).1 bs hbs
  have hres2 : (processAll (processAll p bs).1 bs).1.results =
      (processAll p bs).1.results ++ expectedResults p.processor p.items := by
    rw [h2, hproc, hitems]
  have herr2 : (processAll (processAll p bs).1 bs).1.errors =
      (processAll p bs).1.errors ++ expectedErrors p.processor p.items := by
    rw [h2, hproc, hitems]
  refine ⟨⟨hres, herr, hitems, hproc⟩, ⟨hres2, herr2⟩, fun hfresh hall => ?_⟩
  rw [hres2, hres, hfresh]
  simp only [List.nil_append, List.length_append]
  have := (expected_all_ok p.processor 0 p.items 0 hall).1
  omega

/-- C10 witness: a fresh 3-item all-succeeding processor run twice ends with
6 accumulated results. -/
theorem c10_witness :
    (processAll
      (processAll ⟨[0, 1, 2], fun n => (Except.ok n : Except ProcError Nat), [], []⟩
        10).1 10).1.results.length = 2 * 3 := by
  have h := c10_accumulators_never_reset
    ⟨[0, 1, 2], fun n => (Except.ok n : Except ProcError Nat), [], []⟩ 10 (by decide)
  have := h.2.2 rfl (fun t _ => ⟨t, rfl⟩)
  simpa using this
